import Mathlib

/-!
# Verification of the sftp_dev_uploader core against its specification

This file shallowly embeds the core data model and operations of the
`sftp_dev_uploader` repository (a Rust development-time SFTP file
synchroniser) and proves or refutes the frozen claims about it.

Embedded components:
* `split_to_n_chunks`   (src/utils/mod.rs)
* `UploadPair` parsing  (src/cli/upload_pair.rs)
* path translation and the per-session SFTP client state machine
  (src/sftp/sftp_client.rs, src/sftp/local_utils.rs)
* the watcher's event/tag filter and initial scan
  (src/watcher/watch_actor.rs, src/watcher/watch_actor_handle.rs)
* the upload dispatcher's batch lifecycle (src/uploader/upload_actor.rs)

External effects (the remote SFTP server, the local filesystem) are
modelled explicitly: the remote filesystem is a finite map from paths to
entry kinds, protocol traffic is recorded as an explicit operation trace,
and local-OS calls (`canonicalize`, `File::open`, stream copy) are
parameters of the functions that perform them.
-/

namespace SftpDevUploader

/-! ## Paths

Rust `Path`/`PathBuf` values are modelled as a normal-component list plus
an absoluteness flag (the `RootDir` component of an absolute Rust path is
represented by `absolute = true` rather than by a list element). -/

/-- A filesystem path: absoluteness flag plus the list of normal components.
`⟨true, ["a", "b"]⟩` models `/a/b`; `⟨false, ["a"]⟩` models `a`. -/
structure RPath where
  absolute : Bool
  components : List String
deriving DecidableEq, Repr

/-- `Path::is_relative`. -/
def RPath.isRelative (p : RPath) : Bool := !p.absolute

/-- `Path::join` / `PathBuf::push` of a whole path: an absolute argument
replaces the receiver, a relative one is appended component-wise. -/
def RPath.join (p q : RPath) : RPath :=
  if q.absolute then q else ⟨p.absolute, p.components ++ q.components⟩

/-- `PathBuf::push` of one normal component. -/
def RPath.push (p : RPath) (c : String) : RPath :=
  ⟨p.absolute, p.components ++ [c]⟩

/-- `Path::parent`: drops the last component; the root `/` and the empty
relative path have no parent. -/
def RPath.parent (p : RPath) : Option RPath :=
  match p.components with
  | [] => none
  | _ :: _ => some ⟨p.absolute, p.components.dropLast⟩

/-- `Path::strip_prefix`: succeeds when `base` is a component-wise prefix
of `p` (with matching `RootDir`), returning the relative remainder.
Stripping the empty relative path returns `p` unchanged, as in Rust. -/
def RPath.stripPrefix (p base : RPath) : Option RPath :=
  if base.absolute then
    if p.absolute && base.components.isPrefixOf p.components then
      some ⟨false, p.components.drop base.components.length⟩
    else none
  else
    if base.components = [] then some p
    else if !p.absolute && base.components.isPrefixOf p.components then
      some ⟨false, p.components.drop base.components.length⟩
    else none

/-! ## `split_to_n_chunks` (src/utils/mod.rs)

The Rust loop runs `i = n, n-1, ..., 1`, each turn draining
`ceil(input.len() / i)` elements (clamped to the remaining length) from
the front of the input. `ceil(len / i)` for natural numbers is
`(len + i - 1) / i`, written `(len + m) / (m + 1)` for `i = m + 1`. -/

/-- `split_to_n_chunks` from src/utils/mod.rs. The Rust function panics
for `n = 0` (the loop body is never entered); the model returns `[]`
there and every claim carries the `1 ≤ n` hypothesis. -/
def split_to_n_chunks {α : Type} : List α → Nat → List (List α)
  | _, 0 => []
  | xs, m + 1 =>
    xs.take (min ((xs.length + m) / (m + 1)) xs.length) ::
      split_to_n_chunks (xs.drop (min ((xs.length + m) / (m + 1)) xs.length)) m

/-- Modelled from the spec: `chunk_size_i = ceil(remaining / remaining_chunks)`
applied greedily, tracking only the sizes. -/
def chunkSizesSpec : Nat → Nat → List Nat
  | _, 0 => []
  | len, m + 1 =>
    (len + m) / (m + 1) :: chunkSizesSpec (len - (len + m) / (m + 1)) m

/-- The greedy ceiling never exceeds the number of remaining elements. -/
lemma ceil_div_le_self (len m : Nat) : (len + m) / (m + 1) ≤ len := by
  cases len with
  | zero =>
    have : m < m + 1 := Nat.lt_succ_self m
    simp [Nat.div_eq_of_lt this]
  | succ l =>
    have h1 : l + 1 + m ≤ (l + 1) * (m + 1) := by nlinarith
    calc (l + 1 + m) / (m + 1) ≤ (l + 1) * (m + 1) / (m + 1) := Nat.div_le_div_right h1
    _ = l + 1 := Nat.mul_div_cancel _ (by omega)

/-- Concatenating the chunks recovers the input list. -/
lemma split_to_n_chunks_flatten {α : Type} :
    ∀ (m : Nat) (xs : List α), (split_to_n_chunks xs (m + 1)).flatten = xs := by
  intro m
  induction m with
  | zero =>
    intro xs
    simp [split_to_n_chunks, Nat.div_one, List.take_length]
  | succ m ih =>
    intro xs
    conv_lhs => rw [split_to_n_chunks]
    rw [List.flatten_cons, ih]
    exact List.take_append_drop _ xs

/-- The chunk sizes are exactly the greedy ceiling sizes of the spec. -/
lemma split_to_n_chunks_sizes {α : Type} :
    ∀ (n : Nat) (xs : List α),
      (split_to_n_chunks xs n).map List.length = chunkSizesSpec xs.length n := by
  intro n
  induction n with
  | zero => intro xs; simp [split_to_n_chunks, chunkSizesSpec]
  | succ m ih =>
    intro xs
    have hle : (xs.length + m) / (m + 1) ≤ xs.length := ceil_div_le_self _ _
    have hmin : min ((xs.length + m) / (m + 1)) xs.length = (xs.length + m) / (m + 1) :=
      min_eq_left hle
    conv_lhs => rw [split_to_n_chunks]
    conv_rhs => rw [chunkSizesSpec]
    simp only [List.map_cons, ih, List.length_take, List.length_drop, hmin]

/-- `split_to_n_chunks` always returns exactly `n` chunks. -/
lemma split_to_n_chunks_length {α : Type} :
    ∀ (n : Nat) (xs : List α), (split_to_n_chunks xs n).length = n := by
  intro n
  induction n with
  | zero => intro xs; simp [split_to_n_chunks]
  | succ m ih =>
    intro xs
    conv_lhs => rw [split_to_n_chunks]
    simp [ih]

/-- Splitting the empty list yields `n` empty chunks. -/
lemma split_to_n_chunks_nil {α : Type} :
    ∀ (n : Nat), split_to_n_chunks ([] : List α) n = List.replicate n [] := by
  intro n
  induction n with
  | zero => simp [split_to_n_chunks]
  | succ m ih => simp [split_to_n_chunks, List.replicate_succ, ih]

/-- A nonempty input always produces a nonempty first chunk. -/
lemma split_to_n_chunks_first_ne_nil {α : Type} (m : Nat) (xs : List α)
    (hxs : xs ≠ []) :
    xs.take (min ((xs.length + m) / (m + 1)) xs.length) ≠ [] := by
  intro habs
  have hlen := congrArg List.length habs
  simp only [List.length_take, List.length_nil] at hlen
  have h1 : 0 < xs.length := List.length_pos.mpr hxs
  have h2 : 1 ≤ (xs.length + m) / (m + 1) :=
    (Nat.le_div_iff_mul_le (by omega)).mpr (by omega)
  omega

/-- Empty chunks only occur at the tail: if chunk `i` is empty then every
later chunk is empty too. -/
lemma split_to_n_chunks_empty_tail {α : Type} :
    ∀ (n : Nat) (xs : List α) (i j : Nat), i ≤ j → j < n →
      (split_to_n_chunks xs n)[i]? = some [] →
      (split_to_n_chunks xs n)[j]? = some [] := by
  intro n
  induction n with
  | zero => intro xs i j _ hj _; omega
  | succ m ih =>
    intro xs i j hij hj hempty
    by_cases hxs : xs = []
    · subst hxs
      rw [split_to_n_chunks_nil]
      rw [List.getElem?_eq_getElem (by simpa using hj)]
      simp [List.getElem_replicate]
    · cases i with
      | zero =>
        exfalso
        rw [split_to_n_chunks] at hempty
        simp only [List.getElem?_cons_zero, Option.some.injEq] at hempty
        exact split_to_n_chunks_first_ne_nil m xs hxs hempty
      | succ i' =>
        cases j with
        | zero => omega
        | succ j' =>
          rw [split_to_n_chunks] at hempty ⊢
          simp only [List.getElem?_cons_succ] at hempty ⊢
          exact ih _ i' j' (by omega) (by omega) hempty

/-! ## Remote filesystem and SFTP session model (src/sftp/sftp_client.rs)

The remote server is modelled as a finite association list from absolute
or relative paths to entry kinds; `stat` failure is `none` (path absent).
Every protocol round-trip is recorded as an `SftpOp` so that claims about
"zero protocol traffic" are statements about the emitted trace. -/

/-- Kind of a remote filesystem entry as classified by `stat`. -/
inductive FsEntry : Type
  | file
  | dir
  | other
deriving DecidableEq, Repr

/-- The remote filesystem visible to one `stat`/`mkdir` client. -/
structure RemoteFs where
  entries : List (RPath × FsEntry)
deriving DecidableEq, Repr

/-- `stat`: the root `/` always exists as a directory; other paths are
looked up in the entry list (first match wins). `none` models the
protocol error returned for an absent path. -/
def RemoteFs.stat (fs : RemoteFs) (p : RPath) : Option FsEntry :=
  if p = ⟨true, []⟩ then some FsEntry.dir
  else (fs.entries.find? (fun e => e.1 = p)).map (fun e => e.2)

/-- `mkdir`: fails when the path already exists or its parent is not an
existing directory; otherwise inserts the new directory. -/
def RemoteFs.mkdir (fs : RemoteFs) (p : RPath) : Option RemoteFs :=
  match fs.stat p with
  | some _ => none
  | none =>
    match p.parent with
    | none => none
    | some par =>
      if fs.stat par = some FsEntry.dir then some ⟨(p, FsEntry.dir) :: fs.entries⟩
      else none

/-- `realpath`: normalises `.` and `..` components and answers only for
paths that exist after normalisation, mirroring the server round-trip
used by `cd_remote`. -/
def RemoteFs.realpath (fs : RemoteFs) (p : RPath) : Option RPath :=
  let norm : RPath :=
    ⟨p.absolute,
      p.components.foldl
        (fun acc c => if c = "." then acc else if c = ".." then acc.dropLast else acc ++ [c])
        []⟩
  if (fs.stat norm).isSome then some norm else none

/-- Open a remote file with `CREATE | WRITE | TRUNCATE`: succeeds iff the
parent is an existing directory and the path is not a directory. -/
def RemoteFs.openCreateTrunc (fs : RemoteFs) (p : RPath) : Option RemoteFs :=
  match p.parent with
  | none => none
  | some par =>
    if fs.stat par = some FsEntry.dir then
      match fs.stat p with
      | some FsEntry.dir => none
      | _ => some ⟨(p, FsEntry.file) :: fs.entries⟩
    else none

/-- One protocol round-trip issued by the client. -/
inductive SftpOp : Type
  | statOp (p : RPath)
  | mkdirOp (p : RPath)
  | realpathOp (p : RPath)
  | openFileOp (p : RPath)
  | closeFileOp (p : RPath)
deriving DecidableEq, Repr

/-- The `std::io::ErrorKind` values produced by
`compute_relative_path_from_local`. -/
inductive IoErrorKind : Type
  | invalidInput
  | notFound
  | otherKind
deriving DecidableEq, Repr

/-- `SftpClientError` (src/sftp/sftp_client.rs). Payloads that only carry
diagnostic text or library error values are reduced to the path (and, for
`LocalPathError`, the io error kind wrapped into its message). -/
inductive SftpClientError : Type
  | openLocalFileError (path : RPath)
  | openRemoteFileError (path : RPath)
  | closeRemoteFileError (path : RPath)
  | remotePathError (path : RPath)
  | localPathError (path : RPath) (inner : IoErrorKind)
  | sftpConnectionMissing
  | localToRemoteCopyError (localPath remotePath : RPath)
  | remoteMkdirError (path : RPath)
deriving DecidableEq, Repr

/-- The per-session client state: the virtual remote cwd (always set once
`connect` has seeded it from the server's `realpath "."`) and the
remote-directory cache. The cache is a `HashMap<PathBuf, bool>` in Rust
whose values are always `true`; a key list is an equivalent model. -/
structure Session where
  remote_cwd : RPath
  remote_dir_cache : List RPath
deriving DecidableEq, Repr

/-- A session together with the remote filesystem it talks to. -/
structure World where
  fs : RemoteFs
  session : Session
deriving DecidableEq, Repr

/-- `canonicalize_remote`: a relative remote path is joined onto the
virtual cwd, an absolute one is taken verbatim. -/
def canonicalize_remote (cwd : RPath) (input : RPath) : RPath :=
  if input.isRelative then cwd.join input else input

/-! ## Local path translation (src/sftp/local_utils.rs)

Local-OS effects are a parameter: `canonicalize` models
`Path::canonicalize` (symlink/existence resolution, may fail), `openRead`
models `File::open`, and the `copyOk`/`flushOk`/`closeOk` flags model the
success of the streamed copy, flush and remote close. -/

/-- The local-OS environment of one upload. -/
structure LocalEnv where
  canonicalize : RPath → Option RPath
  openRead : RPath → Bool
  copyOk : Bool
  flushOk : Bool
  closeOk : Bool

/-- `compute_relative_path_from_local`: rejects relative inputs with
`InvalidInput`, canonicalises the base (the process cwd `localCwd` when no
base is given; `current_dir()` is modelled as always succeeding), then
strips the base prefix. -/
def compute_relative_path_from_local (env : LocalEnv) (localCwd : RPath)
    (input : RPath) (base : Option RPath) : Except IoErrorKind RPath :=
  if input.isRelative then Except.error IoErrorKind.invalidInput
  else
    match (match base with
           | some b => env.canonicalize b
           | none => some localCwd) with
    | none => Except.error IoErrorKind.notFound
    | some useBase =>
      match input.stripPrefix useBase with
      | some rel => Except.ok rel
      | none => Except.error IoErrorKind.otherKind

/-- `local_to_remote_path_with_cwds`. -/
def local_to_remote_path_with_cwds (env : LocalEnv) (localCwd : RPath)
    (cwd : RPath) (localPath : RPath) : Except SftpClientError RPath :=
  match compute_relative_path_from_local env localCwd localPath none with
  | Except.error e => Except.error (SftpClientError.localPathError localPath e)
  | Except.ok rel => Except.ok (canonicalize_remote cwd rel)

/-- `local_to_remote_path_with_lbase`. -/
def local_to_remote_path_with_lbase (env : LocalEnv) (localCwd : RPath)
    (cwd : RPath) (localPath localBase : RPath) : Except SftpClientError RPath :=
  match compute_relative_path_from_local env localCwd localPath (some localBase) with
  | Except.error e => Except.error (SftpClientError.localPathError localPath e)
  | Except.ok rel => Except.ok (canonicalize_remote cwd rel)

/-- `local_to_remote_path_with_rbase`. -/
def local_to_remote_path_with_rbase (env : LocalEnv) (localCwd : RPath)
    (cwd : RPath) (localPath remoteBase : RPath) : Except SftpClientError RPath :=
  match compute_relative_path_from_local env localCwd localPath none with
  | Except.error e => Except.error (SftpClientError.localPathError localPath e)
  | Except.ok rel => Except.ok ((canonicalize_remote cwd remoteBase).join rel)

/-- `local_to_remote_path_with_bases`. -/
def local_to_remote_path_with_bases (env : LocalEnv) (localCwd : RPath)
    (cwd : RPath) (localPath localBase remoteBase : RPath) :
    Except SftpClientError RPath :=
  match compute_relative_path_from_local env localCwd localPath (some localBase) with
  | Except.error e => Except.error (SftpClientError.localPathError localPath e)
  | Except.ok rel => Except.ok ((canonicalize_remote cwd remoteBase).join rel)

/-- `local_to_remote_path`: dispatches on which bases are provided. -/
def local_to_remote_path (env : LocalEnv) (localCwd : RPath) (cwd : RPath)
    (localPath : RPath) (localBase remoteBase : Option RPath) :
    Except SftpClientError RPath :=
  match localBase, remoteBase with
  | some lb, some rb => local_to_remote_path_with_bases env localCwd cwd localPath lb rb
  | some lb, none => local_to_remote_path_with_lbase env localCwd cwd localPath lb
  | none, some rb => local_to_remote_path_with_rbase env localCwd cwd localPath rb
  | none, none => local_to_remote_path_with_cwds env localCwd cwd localPath

/-! ## Recursive mkdir-p (`ensure_dir_remote`) -/

/-- The component walk of `ensure_dir_remote`: `stat` each accumulated
prefix, `continue` when it is already a directory, otherwise `mkdir` with
mode 0o755 and fail on a `mkdir` error. -/
def ensureDirWalk (fs : RemoteFs) (working : RPath) :
    List String → Except SftpClientError Unit × RemoteFs × List SftpOp
  | [] => (Except.ok (), fs, [])
  | c :: rest =>
    let w := working.push c
    if fs.stat w = some FsEntry.dir then
      let (r, fs1, ops) := ensureDirWalk fs w rest
      (r, fs1, SftpOp.statOp w :: ops)
    else
      match fs.mkdir w with
      | some fs1 =>
        let (r, fs2, ops) := ensureDirWalk fs1 w rest
        (r, fs2, SftpOp.statOp w :: SftpOp.mkdirOp w :: ops)
      | none =>
        (Except.error (SftpClientError.remoteMkdirError w), fs,
          [SftpOp.statOp w, SftpOp.mkdirOp w])

/-- `ensure_dir_remote`: for a relative path the walk starts at the
virtual cwd; for an absolute path the first Rust component (`RootDir`) is
popped as the initial working path, i.e. the walk starts at `/`. -/
def ensure_dir_remote (fs : RemoteFs) (cwd : RPath) (path : RPath) :
    Except SftpClientError Unit × RemoteFs × List SftpOp :=
  if path.isRelative then ensureDirWalk fs cwd path.components
  else ensureDirWalk fs ⟨true, []⟩ path.components

/-- `ensure_dir_remote_cached`: a cache hit returns success with no
protocol traffic; otherwise the uncached walk runs and the argument is
inserted into the cache only on success. -/
def ensure_dir_remote_cached (w : World) (path : RPath) :
    Except SftpClientError Unit × World × List SftpOp :=
  if path ∈ w.session.remote_dir_cache then (Except.ok (), w, [])
  else
    match ensure_dir_remote w.fs w.session.remote_cwd path with
    | (Except.error e, fs1, ops) => (Except.error e, { w with fs := fs1 }, ops)
    | (Except.ok _, fs1, ops) =>
      (Except.ok (),
        World.mk fs1
          { w.session with remote_dir_cache := path :: w.session.remote_dir_cache },
        ops)

/-! ## `cd_remote` -/

/-- `cd_remote`: canonicalise the argument, round-trip through the
server's `realpath`, `stat` the destination, and update the virtual cwd
only when the destination is a directory. Errors are returned as the
formatted message strings of the Rust code, reduced to tokens here. -/
def cd_remote (w : World) (newPath : RPath) : Except String RPath × World :=
  let canon := canonicalize_remote w.session.remote_cwd newPath
  match w.fs.realpath canon with
  | none => (Except.error "Cannot cd: realpath failed", w)
  | some resolved =>
    match w.fs.stat resolved with
    | some FsEntry.dir =>
      (Except.ok resolved,
        { w with session := { w.session with remote_cwd := resolved } })
    | some _ => (Except.error "Cannot cd: not a directory", w)
    | none => (Except.error "Cannot cd: stat failed", w)

/-! ## Streamed upload (`upload_file_explicit`, `sync_file_to_*`) -/

/-- `upload_file_explicit`: canonicalise the local path, resolve the
remote path against the virtual cwd, open the local file for reading,
ensure the remote parent directory (cached or uncached), open the remote
file with `CREATE | WRITE | TRUNCATE` mode 0o644, stream-copy, flush, and
close. Each failing step surfaces its typed error. The path stored in
`OpenLocalFileError` is, as in the source, the resolved remote path. -/
def upload_file_explicit (env : LocalEnv) (w : World)
    (localFilepath remoteFilepath : RPath) (allowCachedEnsure : Bool) :
    Except SftpClientError Unit × World × List SftpOp :=
  match env.canonicalize localFilepath with
  | none =>
    (Except.error (SftpClientError.localPathError localFilepath IoErrorKind.notFound), w, [])
  | some localPath =>
    let remotePath := canonicalize_remote w.session.remote_cwd remoteFilepath
    if env.openRead localPath = false then
      (Except.error (SftpClientError.openLocalFileError remotePath), w, [])
    else
      match remotePath.parent with
      | none => (Except.error (SftpClientError.remotePathError remotePath), w, [])
      | some remoteDir =>
        let ensured :=
          if allowCachedEnsure then ensure_dir_remote_cached w remoteDir
          else
            match ensure_dir_remote w.fs w.session.remote_cwd remoteDir with
            | (r, fs1, ops) => (r, { w with fs := fs1 }, ops)
        match ensured with
        | (Except.error e, w1, ops1) => (Except.error e, w1, ops1)
        | (Except.ok _, w1, ops1) =>
          match w1.fs.openCreateTrunc remotePath with
          | none =>
            (Except.error (SftpClientError.openRemoteFileError remotePath), w1,
              ops1 ++ [SftpOp.openFileOp remotePath])
          | some fs2 =>
            let w2 := { w1 with fs := fs2 }
            if env.copyOk = false then
              (Except.error (SftpClientError.localToRemoteCopyError localFilepath remotePath),
                w2, ops1 ++ [SftpOp.openFileOp remotePath])
            else if env.flushOk = false then
              (Except.error (SftpClientError.localToRemoteCopyError localFilepath remotePath),
                w2, ops1 ++ [SftpOp.openFileOp remotePath])
            else if env.closeOk = false then
              (Except.error (SftpClientError.closeRemoteFileError remotePath),
                w2, ops1 ++ [SftpOp.openFileOp remotePath, SftpOp.closeFileOp remotePath])
            else
              (Except.ok (), w2,
                ops1 ++ [SftpOp.openFileOp remotePath, SftpOp.closeFileOp remotePath])

/-- `sync_file_to_dir`. -/
def sync_file_to_dir (env : LocalEnv) (localCwd : RPath) (w : World)
    (localFilepath remoteDir : RPath) (localBase : Option RPath)
    (allowCachedEnsure : Bool) :
    Except SftpClientError Unit × World × List SftpOp :=
  let remotePath :=
    match localBase with
    | some lb =>
      local_to_remote_path_with_bases env localCwd w.session.remote_cwd localFilepath lb remoteDir
    | none =>
      local_to_remote_path_with_rbase env localCwd w.session.remote_cwd localFilepath remoteDir
  match remotePath with
  | Except.error e => (Except.error e, w, [])
  | Except.ok rp => upload_file_explicit env w localFilepath rp allowCachedEnsure

/-- `sync_file_to_cwd`. -/
def sync_file_to_cwd (env : LocalEnv) (localCwd : RPath) (w : World)
    (localFilepath : RPath) (localBase : Option RPath) (allowCachedEnsure : Bool) :
    Except SftpClientError Unit × World × List SftpOp :=
  let remotePath :=
    match localBase with
    | some lb =>
      local_to_remote_path_with_lbase env localCwd w.session.remote_cwd localFilepath lb
    | none => local_to_remote_path_with_cwds env localCwd w.session.remote_cwd localFilepath
  match remotePath with
  | Except.error e => (Except.error e, w, [])
  | Except.ok rp => upload_file_explicit env w localFilepath rp allowCachedEnsure

/-! ## UploadPair parsing (src/cli/upload_pair.rs)

The upload-pair argument is a raw string; it is modelled as a `List Char`
so that splitting and trimming can be reasoned about by induction. -/

/-- `str::trim`: drop whitespace from both ends. -/
def trimChars (s : List Char) : List Char :=
  ((s.dropWhile Char.isWhitespace).reverse.dropWhile Char.isWhitespace).reverse

/-- `str::split(":")`: the list of `:`-separated pieces; always nonempty. -/
def splitOnColon : List Char → List (List Char)
  | [] => [[]]
  | c :: rest =>
    if c = ':' then [] :: splitOnColon rest
    else
      match splitOnColon rest with
      | [] => [[c]]
      | p :: ps => (c :: p) :: ps

/-- `PathBuf::is_absolute` on Unix: the path starts with `/`. -/
def strIsAbsolute (s : List Char) : Bool :=
  match s with
  | '/' :: _ => true
  | _ => false

/-- The parsed `UploadPair`. -/
structure UploadPair where
  source : List Char
  target : List Char
deriving DecidableEq, Repr

/-- `UploadPair::new`: with no target, an absolute source panics (modelled
as `none`) and a relative source defaults the target to itself. -/
def UploadPair.new (source : List Char) (target : Option (List Char)) :
    Option UploadPair :=
  match target with
  | some t => some ⟨source, t⟩
  | none =>
    if strIsAbsolute source then none
    else some ⟨source, source⟩

/-- `UploadPair::from_uploadpair_string`: split on `:`, take the first
piece (trimmed) as source and the second piece (trimmed), if present, as
target; any later pieces are never read from the iterator. -/
def UploadPair.from_uploadpair_string (s : List Char) : Option UploadPair :=
  let parts := splitOnColon s
  let source := trimChars (parts.headD [])
  let target := (parts[1]?).map trimChars
  UploadPair.new source target

/-- Modelled from the spec: "The `<src>[:<dst>]` string is split on the
first `:`", i.e. the target is the whole remainder after the first colon.
This is the comparison definition for the refinement claim. -/
def UploadPair.from_uploadpair_string_specSplit (s : List Char) : Option UploadPair :=
  let source := trimChars (s.takeWhile (fun c => c ≠ ':'))
  let target :=
    if (':') ∈ s then some (trimChars ((s.dropWhile (fun c => c ≠ ':')).drop 1))
    else none
  UploadPair.new source target

lemma splitOnColon_ne_nil (s : List Char) : splitOnColon s ≠ [] := by
  induction s with
  | nil => simp [splitOnColon]
  | cons c rest ih =>
    by_cases hc : c = ':'
    · simp [splitOnColon, hc]
    · simp only [splitOnColon, if_neg hc]
      cases h : splitOnColon rest with
      | nil => simp
      | cons p ps => simp

lemma splitOnColon_no_colon (s : List Char) (h : (':') ∉ s) :
    splitOnColon s = [s] := by
  induction s with
  | nil => simp [splitOnColon]
  | cons c rest ih =>
    have hc : c ≠ ':' := fun hh => h (by simp [hh])
    have hr : (':') ∉ rest := fun hh => h (by simp [hh])
    simp [splitOnColon, hc, ih hr]

lemma splitOnColon_append (a b : List Char) (h : (':') ∉ a) :
    splitOnColon (a ++ ':' :: b) = a :: splitOnColon b := by
  induction a with
  | nil => simp [splitOnColon]
  | cons c rest ih =>
    have hc : c ≠ ':' := fun hh => h (by simp [hh])
    have hr : (':') ∉ rest := fun hh => h (by simp [hh])
    simp only [List.cons_append, splitOnColon, if_neg hc]
    rw [show rest.append (':' :: b) = rest ++ ':' :: b from rfl, ih hr]

lemma splitOnColon_head_takeWhile (s : List Char) :
    (splitOnColon s).headD [] = s.takeWhile (fun c => c ≠ ':') := by
  induction s with
  | nil => simp [splitOnColon]
  | cons c rest ih =>
    by_cases hc : c = ':'
    · simp [splitOnColon, hc, List.takeWhile]
    · simp only [splitOnColon, if_neg hc]
      cases h : splitOnColon rest with
      | nil => exact absurd h (splitOnColon_ne_nil rest)
      | cons p ps =>
        rw [h] at ih
        simp only [List.headD_cons] at ih ⊢
        simp [List.takeWhile, hc, ih]

/-! ## Watcher event filter (src/watcher/watch_actor.rs)

Paths seen by the watcher are modelled as `List Char` (the Rust code
filters on `path.to_str()`), and the `watchexec` tag vocabulary is
reproduced with payload-free constructors where the code ignores the
payload. The `is_dir` flag on a `path` tag records the answer of the
`path.is_dir()` OS call made by the filter. -/

/-- `notify`-style modify kinds. -/
inductive WModifyKind : Type
  | anyKind
  | dataKind
  | metadataKind
  | nameKind
  | otherKind
deriving DecidableEq, Repr

/-- `notify`-style file event kinds. -/
inductive WFileEventKind : Type
  | anyKind
  | accessKind
  | createKind
  | modifyKind (mk : WModifyKind)
  | removeKind
  | otherKind
deriving DecidableEq, Repr

/-- `watchexec` event tags. -/
inductive WTag : Type
  | pathTag (path : List Char) (is_dir : Bool)
  | fileEventKindTag (k : WFileEventKind)
  | sourceTag
  | processTag (pid : Nat)
  | processCompletionTag
  | keyboardTag
  | signalTag
deriving DecidableEq, Repr

/-- `str::ends_with` for a substring pattern. -/
def charsEndsWith (s pat : List Char) : Bool :=
  pat.isSuffixOf s

/-- `str::contains` for a substring pattern. -/
def charsContains (s pat : List Char) : Bool :=
  match s with
  | [] => pat.isEmpty
  | _ :: rest => pat.isPrefixOf s || charsContains rest pat

/-- The path filter applied inside the `Tag::Path` arm: directories are
dropped, then `ignore_ends` (suffix) and `ignore_includes` (substring)
patterns are checked in that order. `true` means the path survives. -/
def pathPassesFilters (p : List Char) (ignoreIncludes ignoreEnds : List (List Char)) :
    Bool :=
  ignoreEnds.all (fun pat => !charsEndsWith p pat)
    && ignoreIncludes.all (fun pat => !charsContains p pat)

/-- The tag loop of `match_event_by_tags`: walks the tag list with the
`result_path` accumulator, returning `none` as soon as a rejecting tag is
seen and otherwise remembering the last surviving path. -/
def matchEventLoop (ignoreIncludes ignoreEnds : List (List Char)) :
    List WTag → Option (List Char) → Option (List Char)
  | [], acc => acc
  | t :: rest, acc =>
    match t with
    | WTag.pathTag p isDir =>
      if isDir then none
      else if ignoreEnds.any (fun pat => charsEndsWith p pat) then none
      else if ignoreIncludes.any (fun pat => charsContains p pat) then none
      else matchEventLoop ignoreIncludes ignoreEnds rest (some p)
    | WTag.fileEventKindTag k =>
      match k with
      | WFileEventKind.anyKind => matchEventLoop ignoreIncludes ignoreEnds rest acc
      | WFileEventKind.accessKind => none
      | WFileEventKind.createKind => matchEventLoop ignoreIncludes ignoreEnds rest acc
      | WFileEventKind.modifyKind mk =>
        match mk with
        | WModifyKind.metadataKind => none
        | _ => matchEventLoop ignoreIncludes ignoreEnds rest acc
      | WFileEventKind.removeKind => none
      | WFileEventKind.otherKind => none
    | WTag.sourceTag => matchEventLoop ignoreIncludes ignoreEnds rest acc
    | WTag.processTag _ => matchEventLoop ignoreIncludes ignoreEnds rest acc
    | WTag.processCompletionTag => matchEventLoop ignoreIncludes ignoreEnds rest acc
    | WTag.keyboardTag => none
    | WTag.signalTag => none

/-- `match_event_by_tags` (src/watcher/watch_actor.rs). -/
def match_event_by_tags (tags : List WTag)
    (ignoreIncludes ignoreEnds : List (List Char)) : Option (List Char) :=
  matchEventLoop ignoreIncludes ignoreEnds tags none

/-- One debounced action's event list turned into the emitted batch: the
per-event filter results, deduplicated (the Rust code collects them into
a `HashSet`). -/
def watcherEventBatch (events : List (List WTag))
    (ignoreIncludes ignoreEnds : List (List Char)) : List (List Char) :=
  (events.filterMap (fun tags => match_event_by_tags tags ignoreIncludes ignoreEnds)).dedup

/-- The initial recursive scan of `start_watching`
(src/watcher/watch_actor_handle.rs): walk entries (path plus an
`is_file` flag), keep regular files whose raw path matches no ignore
pattern, then canonicalise each survivor, skipping canonicalisation
failures. `canon` models `Path::canonicalize`. -/
def initialScanFiles (canon : List Char → Option (List Char))
    (entries : List (List Char × Bool))
    (ignoreIncludes ignoreEnds : List (List Char)) : List (List Char) :=
  ((entries.filter (fun e =>
      e.2
        && ignoreIncludes.all (fun pat => !charsContains e.1 pat)
        && ignoreEnds.all (fun pat => !charsEndsWith e.1 pat))).filterMap
    (fun e => canon e.1))

/-! ## Upload dispatcher (src/uploader/upload_actor.rs)

`actor_upload_files` is modelled as a pure step function from dispatcher
state and batch to new state plus an effect trace. The trace records
session-mutex acquisitions, path translations performed, protocol
operations, spawned worker threads, and status messages sent to the
progress sink — so that "no mutex / no traffic / no worker / no message"
claims are statements about the trace. The parallel workers of step 5 are
linearised in chunk order; each worker still owns exactly its session. -/

/-- A status message sent to the progress sink (or printed). Formatted
text and timestamps are reduced to their data. -/
inductive PMsg : Type
  | detectedFiles (n : Nat)
  | convertPathError (f : RPath)
  | ensurePath (p : RPath)
  | ensurePathError (p : RPath)
  | setBarLength (i : Nat) (n : Nat)
  | setBarMsg (i : Nat) (f : RPath)
  | incBar (i : Nat)
  | uploadError (f : RPath)
  | finishBar (i : Nat)
deriving DecidableEq, Repr

/-- The effect trace of one `actor_upload_files` call. -/
structure DTrace where
  locks : List Nat
  translations : Nat
  ops : List SftpOp
  spawns : Nat
  msgs : List PMsg
deriving DecidableEq, Repr

/-- The empty trace: no mutex acquired, no translation, no protocol
traffic, no worker spawned, no status message. -/
def DTrace.empty : DTrace := ⟨[], 0, [], 0, []⟩

/-- The dispatcher's state: the configured connection count, the session
pool (each session's cwd and directory cache) and the shared remote
filesystem they all talk to. -/
structure DispatchState where
  connCount : Nat
  sessions : List Session
  fs : RemoteFs
deriving DecidableEq, Repr

/-- Placeholder session used only for the out-of-range index that the
Rust `self.connections[i]` would panic on (unreachable while the pool
invariant `sessions.length = connCount` holds). -/
def dummySession : Session := ⟨⟨true, []⟩, []⟩

/-- Step 3.1: translate every file on the chosen session, collecting the
deduplicated set of remote parent directories. Translation errors are
logged and the file is skipped (`continue`). -/
def collectRemoteDirs (env : LocalEnv) (localCwd : RPath) (cwd : RPath)
    (targetDir localBaseDir : Option RPath) :
    List RPath → List RPath × Nat × List PMsg
  | [] => ([], 0, [])
  | f :: rest =>
    let (dirs, n, msgs) := collectRemoteDirs env localCwd cwd targetDir localBaseDir rest
    match local_to_remote_path env localCwd cwd f localBaseDir targetDir with
    | Except.error _ => (dirs, n + 1, PMsg.convertPathError f :: msgs)
    | Except.ok rp =>
      let rdir := match rp.parent with
        | some par => par
        | none => ⟨false, []⟩
      ((if rdir ∈ dirs then dirs else rdir :: dirs), n + 1, msgs)

/-- Step 3.2: pre-create every collected remote directory on the chosen
session via the cached mkdir-p; errors are logged and the entry skipped. -/
def ensureRemoteDirs (w : World) :
    List RPath → World × List SftpOp × List PMsg
  | [] => (w, [], [])
  | d :: rest =>
    match ensure_dir_remote_cached w d with
    | (r, w1, ops1) =>
      let (w2, ops2, msgs2) := ensureRemoteDirs w1 rest
      (w2, ops1 ++ ops2,
        PMsg.ensurePath d ::
          ((match r with
            | Except.ok _ => []
            | Except.error _ => [PMsg.ensurePathError d]) ++ msgs2))

/-- One worker thread: lock session `i`, upload each file of the chunk in
order (`sync_file_to_cwd` when no target dir is configured, otherwise
`sync_file_to_dir`, always with the cached ensure), log per-file errors
and keep going. -/
def runWorkerFiles (env : LocalEnv) (localCwd : RPath)
    (targetDir localBaseDir : Option RPath) (i : Nat) (w : World) :
    List RPath → World × List SftpOp × List PMsg
  | [] => (w, [], [])
  | f :: rest =>
    let step :=
      match targetDir with
      | none => sync_file_to_cwd env localCwd w f localBaseDir true
      | some td => sync_file_to_dir env localCwd w f td localBaseDir true
    match step with
    | (r, w1, ops1) =>
      let (w2, ops2, msgs2) := runWorkerFiles env localCwd targetDir localBaseDir i w1 rest
      (w2, ops1 ++ ops2,
        PMsg.setBarMsg i f ::
          ((match r with
            | Except.ok _ => []
            | Except.error _ => [PMsg.uploadError f]) ++ (PMsg.incBar i :: msgs2)))

/-- Step 5: for each chunk `i`, set the progress bar length, spawn a
worker bound to session `i`, and run it (linearised in chunk order). -/
def runWorkers (env : LocalEnv) (localCwd : RPath)
    (targetDir localBaseDir : Option RPath) :
    RemoteFs → List Session → Nat → List (List RPath) →
    RemoteFs × List Session × List Nat × List SftpOp × List PMsg
  | fs, sessions, _, [] => (fs, sessions, [], [], [])
  | fs, sessions, i, chunk :: more =>
    let si := sessions.getD i dummySession
    let (w1, ops1, msgs1) :=
      runWorkerFiles env localCwd targetDir localBaseDir i ⟨fs, si⟩ chunk
    let sessions1 := sessions.set i w1.session
    let (fs2, sessions2, locks2, ops2, msgs2) :=
      runWorkers env localCwd targetDir localBaseDir w1.fs sessions1 (i + 1) more
    (fs2, sessions2, i :: locks2, ops1 ++ ops2,
      PMsg.setBarLength i chunk.length :: (msgs1 ++ msgs2))

/-- `actor_upload_files`: drop empty batches immediately; otherwise log
the batch, lock one session to precompute and pre-create the remote
directory set, shard the file list into `connCount` chunks, spawn one
worker per chunk, and finish every progress bar after the join. An empty
session pool (on which the Rust `first().unwrap()` would panic) stops
after the log message. -/
def actor_upload_files (env : LocalEnv) (localCwd : RPath)
    (st : DispatchState) (filesToUpload : List RPath)
    (targetDir localBaseDir : Option RPath) : DispatchState × DTrace :=
  if filesToUpload = [] then (st, DTrace.empty)
  else
    match st.sessions with
    | [] => (st, ⟨[], 0, [], 0, [PMsg.detectedFiles filesToUpload.length]⟩)
    | s0 :: restSessions =>
      let (dirs, nTrans, msgs31) :=
        collectRemoteDirs env localCwd s0.remote_cwd targetDir localBaseDir filesToUpload
      let (w1, ops32, msgs32) := ensureRemoteDirs ⟨st.fs, s0⟩ dirs
      let sessions1 := w1.session :: restSessions
      let chunks := split_to_n_chunks filesToUpload st.connCount
      let (fsF, sessionsF, workerLocks, workerOps, workerMsgs) :=
        runWorkers env localCwd targetDir localBaseDir w1.fs sessions1 0 chunks
      (⟨st.connCount, sessionsF, fsF⟩,
        ⟨0 :: workerLocks, nTrans, ops32 ++ workerOps, chunks.length,
          PMsg.detectedFiles filesToUpload.length ::
            (msgs31 ++ msgs32 ++ workerMsgs ++
              (List.range chunks.length).map PMsg.finishBar)⟩)

/-! ## Claims -/

/-- C1: for every input list `xs` and pool size `N ≥ 1`,
`split_to_n_chunks xs N` is an ordered chunk sequence whose concatenation
is `xs` (no element lost or duplicated), the `i`-th chunk size is the
greedy `ceil(remaining / remaining_chunks)`, and for 10 elements and
`N = 3` the sizes are `(4, 3, 3)` in that order. -/
theorem claim_C1_split_to_n_chunks (α : Type) (xs : List α) (n : Nat) (hn : 1 ≤ n) :
    (split_to_n_chunks xs n).flatten = xs
    ∧ (split_to_n_chunks xs n).map List.length = chunkSizesSpec xs.length n
    ∧ (split_to_n_chunks (List.range 10) 3).map List.length = [4, 3, 3] := by
  obtain ⟨m, rfl⟩ : ∃ m, n = m + 1 := ⟨n - 1, by omega⟩
  exact ⟨split_to_n_chunks_flatten m xs, split_to_n_chunks_sizes (m + 1) xs, by decide⟩

/-- Witness for C1 at `xs = range 10`, `N = 3`. -/
theorem claim_C1_split_to_n_chunks_witness :
    (split_to_n_chunks (List.range 10) 3).flatten = List.range 10
    ∧ (split_to_n_chunks (List.range 10) 3).map List.length = chunkSizesSpec 10 3
    ∧ (split_to_n_chunks (List.range 10) 3).map List.length = [4, 3, 3] := by
  have h := claim_C1_split_to_n_chunks Nat (List.range 10) 3 (by decide)
  simpa using h

/-- C8: a batch with an empty file list returns immediately with the
dispatcher state unchanged and an empty effect trace: no session mutex
acquired, no path translation, no remote directory creation, no worker
spawned, no status message. -/
theorem claim_C8_empty_batch (env : LocalEnv) (localCwd : RPath)
    (st : DispatchState) (targetDir localBaseDir : Option RPath) :
    actor_upload_files env localCwd st [] targetDir localBaseDir
      = (st, DTrace.empty) := by
  simp [actor_upload_files]

/-- C9: `split_to_n_chunks` returns exactly `n` chunks even when the list
has fewer than `n` elements, the surplus empty chunks sit at the end, and
on every non-empty batch the dispatcher spawns one worker per configured
session. -/
theorem claim_C9_chunk_count (α : Type) (xs : List α) (n : Nat) (_hn : 1 ≤ n) :
    (split_to_n_chunks xs n).length = n
    ∧ (∀ i j, i ≤ j → j < n →
        (split_to_n_chunks xs n)[i]? = some [] →
        (split_to_n_chunks xs n)[j]? = some [])
    ∧ (∀ (env : LocalEnv) (localCwd : RPath) (st : DispatchState)
        (files : List RPath) (targetDir localBaseDir : Option RPath),
        st.sessions.length = st.connCount → 1 ≤ st.connCount → files ≠ [] →
        (actor_upload_files env localCwd st files targetDir localBaseDir).2.spawns
          = st.sessions.length) := by
  refine ⟨split_to_n_chunks_length n xs, fun i j hij hj h => ?_, ?_⟩
  · exact split_to_n_chunks_empty_tail n xs i j hij hj h
  · intro env localCwd st files targetDir localBaseDir hlen hcnt hf
    have hs : st.sessions ≠ [] := by
      intro habs
      rw [habs] at hlen
      simp at hlen
      omega
    obtain ⟨s0, rest, hsess⟩ := List.exists_cons_of_ne_nil hs
    rcases hC : collectRemoteDirs env localCwd s0.remote_cwd targetDir localBaseDir files
      with ⟨dirs, nT, m31⟩
    rcases hE : ensureRemoteDirs ⟨st.fs, s0⟩ dirs with ⟨w1, ops32, m32⟩
    rcases hW : runWorkers env localCwd targetDir localBaseDir w1.fs
        (w1.session :: rest) 0 (split_to_n_chunks files st.connCount)
      with ⟨fsF, sessionsF, locks, ops, msgs⟩
    simp only [actor_upload_files, if_neg hf, hsess, hC, hE, hW]
    rw [split_to_n_chunks_length st.connCount files, ← hlen, hsess]

/-- Witness for C9 at `xs = [0]`, `n = 3` (one element, two empty tail
chunks) and a concrete one-session dispatcher state. -/
theorem claim_C9_chunk_count_witness :
    (split_to_n_chunks [0] 3).length = 3
    ∧ (split_to_n_chunks [0] 3)[1]? = some []
    ∧ (split_to_n_chunks [0] 3)[2]? = some []
    ∧ (actor_upload_files
        ⟨fun p => some p, fun _ => true, true, true, true⟩ ⟨true, []⟩
        ⟨1, [⟨⟨true, ["h"]⟩, []⟩], ⟨[]⟩⟩
        [⟨true, ["h", "x"]⟩] none none).2.spawns = 1 := by
  have h := claim_C9_chunk_count Nat [0] 3 (by decide)
  refine ⟨h.1, ?_, h.2.1 1 2 (by decide) (by decide) ?_, ?_⟩
  · decide
  · decide
  · exact h.2.2 ⟨fun p => some p, fun _ => true, true, true, true⟩ ⟨true, []⟩
      ⟨1, [⟨⟨true, ["h"]⟩, []⟩], ⟨[]⟩⟩ [⟨true, ["h", "x"]⟩] none none
      rfl (by decide) (by simp)

/-- Decidable equality on `Except`, so that concrete runs of the client
functions can be checked by `decide`. -/
instance exceptDecidableEq {ε α : Type} [DecidableEq ε] [DecidableEq α] :
    DecidableEq (Except ε α)
  | Except.ok x, Except.ok y => decidable_of_iff (x = y) (by simp)
  | Except.ok _, Except.error _ => isFalse (by simp)
  | Except.error _, Except.ok _ => isFalse (by simp)
  | Except.error e, Except.error f => decidable_of_iff (e = f) (by simp)

/-- After a successful `ensure_dir_remote_cached`, the argument is in the
resulting session's directory cache. -/
lemma ensure_dir_remote_cached_mem (w : World) (d : RPath)
    (hok : (ensure_dir_remote_cached w d).1 = Except.ok ()) :
    d ∈ (ensure_dir_remote_cached w d).2.1.session.remote_dir_cache := by
  by_cases hmem : d ∈ w.session.remote_dir_cache
  · simp [ensure_dir_remote_cached, hmem]
  · rcases hE : ensure_dir_remote w.fs w.session.remote_cwd d with ⟨r, fs1, ops⟩
    cases r with
    | error e =>
      rw [ensure_dir_remote_cached, if_neg hmem, hE] at hok
      simp at hok
    | ok u =>
      rw [ensure_dir_remote_cached, if_neg hmem, hE]
      simp

/-- C3: after one successful `ensure_dir_remote_cached d`, a second call
with the same argument on the resulting session returns success, leaves
the state unchanged, and issues zero protocol operations (no `stat`, no
`mkdir`). -/
theorem claim_C3_ensure_dir_cached_idempotent (w : World) (d : RPath)
    (hok : (ensure_dir_remote_cached w d).1 = Except.ok ()) :
    ensure_dir_remote_cached (ensure_dir_remote_cached w d).2.1 d
      = (Except.ok (), (ensure_dir_remote_cached w d).2.1, ([] : List SftpOp)) := by
  have hmem := ensure_dir_remote_cached_mem w d hok
  rw [ensure_dir_remote_cached, if_pos hmem]

/-- Witness for C3: an empty filesystem with cwd `/h` and target `/h/a`;
the first call creates the directory, the second is a silent cache hit. -/
theorem claim_C3_ensure_dir_cached_idempotent_witness :
    (ensure_dir_remote_cached ⟨⟨[]⟩, ⟨⟨true, ["h"]⟩, []⟩⟩ ⟨true, ["h", "a"]⟩).1
      = Except.ok ()
    ∧ ensure_dir_remote_cached
        (ensure_dir_remote_cached ⟨⟨[]⟩, ⟨⟨true, ["h"]⟩, []⟩⟩ ⟨true, ["h", "a"]⟩).2.1
        ⟨true, ["h", "a"]⟩
      = (Except.ok (),
         (ensure_dir_remote_cached ⟨⟨[]⟩, ⟨⟨true, ["h"]⟩, []⟩⟩ ⟨true, ["h", "a"]⟩).2.1,
         ([] : List SftpOp)) := by
  refine ⟨by decide, claim_C3_ensure_dir_cached_idempotent _ _ (by decide)⟩

/-- C7: `cd_remote` leaves the virtual cwd (indeed the whole state)
unchanged on any error, and on success sets it to exactly the
server-normalised (`realpath`) destination without touching the remote
filesystem. -/
theorem claim_C7_cd_remote_cwd (w : World) (p : RPath) :
    ((cd_remote w p).2.session.remote_cwd =
      match (cd_remote w p).1 with
      | Except.ok q => q
      | Except.error _ => w.session.remote_cwd)
    ∧ (∀ e, (cd_remote w p).1 = Except.error e → (cd_remote w p).2 = w)
    ∧ (∀ q, (cd_remote w p).1 = Except.ok q →
        w.fs.realpath (canonicalize_remote w.session.remote_cwd p) = some q
        ∧ (cd_remote w p).2.fs = w.fs) := by
  simp only [cd_remote]
  cases hrp : w.fs.realpath (canonicalize_remote w.session.remote_cwd p) with
  | none => simp [hrp]
  | some q =>
    cases hst : w.fs.stat q with
    | none => simp [hrp, hst]
    | some fe => cases fe <;> simp [hrp, hst]

/-- Witness for C7: a successful `cd` into `/h` (cwd becomes the resolved
path) and a failing `cd` into the absent `/nope` (state unchanged). -/
theorem claim_C7_cd_remote_cwd_witness :
    ((cd_remote ⟨⟨[(⟨true, ["h"]⟩, FsEntry.dir)]⟩, ⟨⟨true, []⟩, []⟩⟩
        ⟨false, ["h"]⟩).1 = Except.ok ⟨true, ["h"]⟩
      ∧ (cd_remote ⟨⟨[(⟨true, ["h"]⟩, FsEntry.dir)]⟩, ⟨⟨true, []⟩, []⟩⟩
          ⟨false, ["h"]⟩).2.session.remote_cwd = ⟨true, ["h"]⟩)
    ∧ (cd_remote ⟨⟨[(⟨true, ["h"]⟩, FsEntry.dir)]⟩, ⟨⟨true, []⟩, []⟩⟩
        ⟨false, ["nope"]⟩).2
      = ⟨⟨[(⟨true, ["h"]⟩, FsEntry.dir)]⟩, ⟨⟨true, []⟩, []⟩⟩ := by
  have hOk := claim_C7_cd_remote_cwd
    ⟨⟨[(⟨true, ["h"]⟩, FsEntry.dir)]⟩, ⟨⟨true, []⟩, []⟩⟩ ⟨false, ["h"]⟩
  have hErr := claim_C7_cd_remote_cwd
    ⟨⟨[(⟨true, ["h"]⟩, FsEntry.dir)]⟩, ⟨⟨true, []⟩, []⟩⟩ ⟨false, ["nope"]⟩
  refine ⟨⟨by decide, ?_⟩, ?_⟩
  · have h1 := hOk.1
    rw [show (cd_remote ⟨⟨[(⟨true, ["h"]⟩, FsEntry.dir)]⟩, ⟨⟨true, []⟩, []⟩⟩
        ⟨false, ["h"]⟩).1 = Except.ok ⟨true, ["h"]⟩ from by decide] at h1
    exact h1
  · exact hErr.2.1 "Cannot cd: realpath failed" (by decide)

/-- C2: for an absolute local path `f` lying under the (canonical) local
base `b`, translation with bases yields `remote_base_canonical ⊕ (f ⊖ b)`
where the canonical remote base is `r` itself when absolute and the
virtual cwd joined with `r` when relative; a relative local path is
rejected with an invalid-input failure. -/
theorem claim_C2_translate_with_bases (env : LocalEnv) (localCwd cwd f b r rel : RPath) :
    (f.absolute = true → env.canonicalize b = some b → f.stripPrefix b = some rel →
      local_to_remote_path_with_bases env localCwd cwd f b r
        = Except.ok ((if r.absolute then r else cwd.join r).join rel))
    ∧ (f.absolute = false →
      local_to_remote_path_with_bases env localCwd cwd f b r
        = Except.error (SftpClientError.localPathError f IoErrorKind.invalidInput)) := by
  constructor
  · intro hf hc hs
    simp only [local_to_remote_path_with_bases, compute_relative_path_from_local,
      RPath.isRelative, hf, hc, hs, canonicalize_remote, Bool.not_true,
      Bool.false_eq_true, if_false]
    rcases Bool.dichotomy r.absolute with hr | hr <;> simp [hr]
  · intro hf
    simp [local_to_remote_path_with_bases, compute_relative_path_from_local,
      RPath.isRelative, hf]

/-- Witness for C2: `translate("/u/me/src/x.go", lbase="/u/me/src",
rbase="/srv") = /srv/x.go`, and the relative local path `x.go` is
rejected with the invalid-input failure. -/
theorem claim_C2_translate_with_bases_witness :
    local_to_remote_path_with_bases
        ⟨fun p => some p, fun _ => true, true, true, true⟩ ⟨true, ["u", "me"]⟩
        ⟨true, ["home"]⟩ ⟨true, ["u", "me", "src", "x.go"]⟩
        ⟨true, ["u", "me", "src"]⟩ ⟨true, ["srv"]⟩
      = Except.ok ⟨true, ["srv", "x.go"]⟩
    ∧ local_to_remote_path_with_bases
        ⟨fun p => some p, fun _ => true, true, true, true⟩ ⟨true, ["u", "me"]⟩
        ⟨true, ["home"]⟩ ⟨false, ["x.go"]⟩ ⟨true, ["u", "me", "src"]⟩ ⟨true, ["srv"]⟩
      = Except.error
          (SftpClientError.localPathError ⟨false, ["x.go"]⟩ IoErrorKind.invalidInput) := by
  constructor
  · have h := (claim_C2_translate_with_bases
      ⟨fun p => some p, fun _ => true, true, true, true⟩ ⟨true, ["u", "me"]⟩
      ⟨true, ["home"]⟩ ⟨true, ["u", "me", "src", "x.go"]⟩
      ⟨true, ["u", "me", "src"]⟩ ⟨true, ["srv"]⟩ ⟨false, ["x.go"]⟩).1
      rfl rfl (by decide)
    simpa using h
  · exact (claim_C2_translate_with_bases
      ⟨fun p => some p, fun _ => true, true, true, true⟩ ⟨true, ["u", "me"]⟩
      ⟨true, ["home"]⟩ ⟨false, ["x.go"]⟩ ⟨true, ["u", "me", "src"]⟩ ⟨true, ["srv"]⟩
      ⟨false, ["x.go"]⟩).2 rfl

/-- C10: when opening the local file for reading fails,
`upload_file_explicit` returns the open-local error variant whose path
field holds the resolved remote target path (not the local path that
failed to open). -/
theorem claim_C10_open_local_error_path (env : LocalEnv) (w : World)
    (localFp remoteFp localCanon : RPath) (cached : Bool)
    (hc : env.canonicalize localFp = some localCanon)
    (ho : env.openRead localCanon = false) :
    (upload_file_explicit env w localFp remoteFp cached).1
      = Except.error (SftpClientError.openLocalFileError
          (canonicalize_remote w.session.remote_cwd remoteFp)) := by
  simp [upload_file_explicit, hc, ho]

/-- Witness for C10: the error path `/h/sub/f.txt` is the resolved remote
target, which differs from the failing local path `/loc/f.txt`. -/
theorem claim_C10_open_local_error_path_witness :
    (upload_file_explicit ⟨fun p => some p, fun _ => false, true, true, true⟩
        ⟨⟨[]⟩, ⟨⟨true, ["h"]⟩, []⟩⟩ ⟨true, ["loc", "f.txt"]⟩
        ⟨false, ["sub", "f.txt"]⟩ true).1
      = Except.error (SftpClientError.openLocalFileError ⟨true, ["h", "sub", "f.txt"]⟩)
    ∧ (⟨true, ["h", "sub", "f.txt"]⟩ : RPath) ≠ ⟨true, ["loc", "f.txt"]⟩ := by
  constructor
  · have h := claim_C10_open_local_error_path
      ⟨fun p => some p, fun _ => false, true, true, true⟩
      ⟨⟨[]⟩, ⟨⟨true, ["h"]⟩, []⟩⟩ ⟨true, ["loc", "f.txt"]⟩
      ⟨false, ["sub", "f.txt"]⟩ ⟨true, ["loc", "f.txt"]⟩ true rfl rfl
    simpa using h
  · decide

/-- C4 counterexample: the parser does not split on the *first* `:` —
`split(":")` is consumed twice, so on `"a:b:c"` the code yields target
`"b"` while splitting on the first colon would yield `"b:c"`. -/
theorem claim_C4_upload_pair_counterexample :
    UploadPair.from_uploadpair_string ('a' :: ':' :: 'b' :: ':' :: 'c' :: [])
      = some ⟨['a'], ['b']⟩
    ∧ UploadPair.from_uploadpair_string_specSplit ('a' :: ':' :: 'b' :: ':' :: 'c' :: [])
      = some ⟨['a'], ['b', ':', 'c']⟩
    ∧ (['b'] : List Char) ≠ ['b', ':', 'c'] := by
  decide

/-- C4 (amended): the argument is split on `:`; the first piece (trimmed)
is the source and the second piece (trimmed) the target, any text after a
second `:` being discarded; with no `:` present, a relative source
defaults the target to itself and an absolute source is rejected. -/
theorem claim_C4_upload_pair_parse (a b s : List Char) :
    ((':') ∉ a →
      UploadPair.from_uploadpair_string (a ++ ':' :: b)
        = some ⟨trimChars a, trimChars (b.takeWhile (fun c => c ≠ ':'))⟩)
    ∧ ((':') ∉ s → strIsAbsolute (trimChars s) = false →
      UploadPair.from_uploadpair_string s = some ⟨trimChars s, trimChars s⟩)
    ∧ ((':') ∉ s → strIsAbsolute (trimChars s) = true →
      UploadPair.from_uploadpair_string s = none) := by
  refine ⟨?_, ?_, ?_⟩
  · intro h
    simp only [UploadPair.from_uploadpair_string, splitOnColon_append a b h]
    cases ht : splitOnColon b with
    | nil => exact absurd ht (splitOnColon_ne_nil b)
    | cons p ps =>
      have hp : p = b.takeWhile (fun c => c ≠ ':') := by
        have := splitOnColon_head_takeWhile b
        rw [ht] at this
        simpa using this
      simp [UploadPair.new, hp]
  · intro h habs
    simp [UploadPair.from_uploadpair_string, splitOnColon_no_colon s h,
      UploadPair.new, habs]
  · intro h habs
    simp [UploadPair.from_uploadpair_string, splitOnColon_no_colon s h,
      UploadPair.new, habs]

/-- Witness for C4 (amended) at `"pg:d"`, `"p"` and `"/a"`. -/
theorem claim_C4_upload_pair_parse_witness :
    UploadPair.from_uploadpair_string ('p' :: 'g' :: ':' :: 'd' :: [])
      = some ⟨['p', 'g'], ['d']⟩
    ∧ UploadPair.from_uploadpair_string ('p' :: []) = some ⟨['p'], ['p']⟩
    ∧ UploadPair.from_uploadpair_string ('/' :: 'a' :: []) = none := by
  refine ⟨?_, ?_, ?_⟩
  · have h := (claim_C4_upload_pair_parse ['p', 'g'] ['d'] []).1 (by decide)
    calc UploadPair.from_uploadpair_string ('p' :: 'g' :: ':' :: 'd' :: [])
        = some ⟨trimChars ['p', 'g'],
            trimChars (List.takeWhile (fun c => c ≠ ':') ['d'])⟩ := h
      _ = some ⟨['p', 'g'], ['d']⟩ := by decide
  · have h := (claim_C4_upload_pair_parse [] [] ['p']).2.1 (by decide) (by decide)
    calc UploadPair.from_uploadpair_string ('p' :: [])
        = some ⟨trimChars ['p'], trimChars ['p']⟩ := h
      _ = some ⟨['p'], ['p']⟩ := by decide
  · exact (claim_C4_upload_pair_parse [] [] ['/', 'a']).2.2 (by decide) (by decide)

/-- A rejecting tag anywhere in the tag list forces the filter to return
`none`, whatever the accumulator holds. -/
lemma matchEventLoop_none_of_reject (inc ends : List (List Char)) :
    ∀ (tags : List WTag) (acc : Option (List Char)),
      (WTag.fileEventKindTag WFileEventKind.accessKind ∈ tags
        ∨ WTag.fileEventKindTag WFileEventKind.removeKind ∈ tags
        ∨ WTag.fileEventKindTag (WFileEventKind.modifyKind WModifyKind.metadataKind) ∈ tags
        ∨ WTag.keyboardTag ∈ tags ∨ WTag.signalTag ∈ tags) →
      matchEventLoop inc ends tags acc = none := by
  intro tags
  induction tags with
  | nil => intro acc h; simp at h
  | cons t rest ih =>
    intro acc h
    cases t with
    | pathTag p d =>
      have h2 := ih (some p) (by simpa using h)
      simp only [matchEventLoop]
      split_ifs <;> first | rfl | exact h2
    | fileEventKindTag k =>
      cases k with
      | anyKind => exact ih acc (by simpa using h)
      | accessKind => rfl
      | createKind => exact ih acc (by simpa using h)
      | modifyKind mk =>
        cases mk with
        | metadataKind => rfl
        | anyKind => exact ih acc (by simpa using h)
        | dataKind => exact ih acc (by simpa using h)
        | nameKind => exact ih acc (by simpa using h)
        | otherKind => exact ih acc (by simpa using h)
      | removeKind => rfl
      | otherKind => rfl
    | sourceTag => exact ih acc (by simpa using h)
    | processTag pid => exact ih acc (by simpa using h)
    | processCompletionTag => exact ih acc (by simpa using h)
    | keyboardTag => rfl
    | signalTag => rfl

/-- An event carrying no path tag (e.g. a pure process event) contributes
no path. -/
lemma matchEventLoop_none_of_no_path (inc ends : List (List Char)) :
    ∀ (tags : List WTag), (∀ p d, WTag.pathTag p d ∉ tags) →
      matchEventLoop inc ends tags none = none := by
  intro tags
  induction tags with
  | nil => intro _; rfl
  | cons t rest ih =>
    intro h
    have hrest : ∀ p d, WTag.pathTag p d ∉ rest := by
      intro p d hmem
      exact h p d (List.mem_cons_of_mem _ hmem)
    cases t with
    | pathTag p d => exact absurd (List.mem_cons_self _ _) (h p d)
    | fileEventKindTag k =>
      cases k with
      | anyKind => exact ih hrest
      | accessKind => rfl
      | createKind => exact ih hrest
      | modifyKind mk =>
        cases mk with
        | metadataKind => rfl
        | anyKind => exact ih hrest
        | dataKind => exact ih hrest
        | nameKind => exact ih hrest
        | otherKind => exact ih hrest
      | removeKind => rfl
      | otherKind => rfl
    | sourceTag => exact ih hrest
    | processTag pid => exact ih hrest
    | processCompletionTag => exact ih hrest
    | keyboardTag => rfl
    | signalTag => rfl

/-- A path produced by the filter either was the accumulator already or
survived the ignore-pattern checks. -/
lemma matchEventLoop_some_passes (inc ends : List (List Char)) :
    ∀ (tags : List WTag) (acc : Option (List Char)) (p : List Char),
      matchEventLoop inc ends tags acc = some p →
      acc = some p ∨ pathPassesFilters p inc ends = true := by
  intro tags
  induction tags with
  | nil => intro acc p h; exact Or.inl h
  | cons t rest ih =>
    intro acc p h
    cases t with
    | pathTag q d =>
      by_cases hd : d = true
      · rw [matchEventLoop, if_pos hd] at h; exact absurd h (by simp)
      · rw [matchEventLoop, if_neg hd] at h
        by_cases he : ends.any (fun pat => charsEndsWith q pat) = true
        · rw [if_pos he] at h; exact absurd h (by simp)
        · rw [if_neg he] at h
          by_cases hi : inc.any (fun pat => charsContains q pat) = true
          · rw [if_pos hi] at h; exact absurd h (by simp)
          · rw [if_neg hi] at h
            rcases ih (some q) p h with hq | hpass
            · right
              obtain rfl : q = p := by simpa using hq
              have he2 : ends.all (fun pat => !charsEndsWith q pat) = true := by
                rw [List.all_eq_true]
                intro pat hpat
                have : charsEndsWith q pat = false := by
                  rcases Bool.dichotomy (charsEndsWith q pat) with hb | hb
                  · exact hb
                  · exact absurd (List.any_eq_true.mpr ⟨pat, hpat, hb⟩) he
                simp [this]
              have hi2 : inc.all (fun pat => !charsContains q pat) = true := by
                rw [List.all_eq_true]
                intro pat hpat
                have : charsContains q pat = false := by
                  rcases Bool.dichotomy (charsContains q pat) with hb | hb
                  · exact hb
                  · exact absurd (List.any_eq_true.mpr ⟨pat, hpat, hb⟩) hi
                simp [this]
              simp [pathPassesFilters, he2, hi2]
            · exact Or.inr hpass
    | fileEventKindTag k =>
      cases k with
      | anyKind => exact ih acc p h
      | accessKind => exact absurd h (by simp [matchEventLoop])
      | createKind => exact ih acc p h
      | modifyKind mk =>
        cases mk with
        | metadataKind => exact absurd h (by simp [matchEventLoop])
        | anyKind => exact ih acc p h
        | dataKind => exact ih acc p h
        | nameKind => exact ih acc p h
        | otherKind => exact ih acc p h
      | removeKind => exact absurd h (by simp [matchEventLoop])
      | otherKind => exact absurd h (by simp [matchEventLoop])
    | sourceTag => exact ih acc p h
    | processTag pid => exact ih acc p h
    | processCompletionTag => exact ih acc p h
    | keyboardTag => exact absurd h (by simp [matchEventLoop])
    | signalTag => exact absurd h (by simp [matchEventLoop])

/-- Every path in an emitted event batch survived the ignore filters. -/
lemma mem_watcherEventBatch_passes (evts : List (List WTag))
    (inc ends : List (List Char)) (p : List Char)
    (h : p ∈ watcherEventBatch evts inc ends) :
    pathPassesFilters p inc ends = true := by
  rw [watcherEventBatch, List.mem_dedup] at h
  rcases List.mem_filterMap.mp h with ⟨tags, _, hm⟩
  rcases matchEventLoop_some_passes inc ends tags none p hm with h1 | h1
  · exact absurd h1 (by simp)
  · exact h1

/-- C6: events whose tags include an access, remove, or metadata-only
modify kind — or a keyboard/signal tag — contribute no path; a
non-filesystem event without any path tag (e.g. a pure process event)
contributes no path; and create / modify-data / modify-name / generic
modify events are accepted, their path kept subject to the path filters. -/
theorem claim_C6_event_kind_filter (tags : List WTag) (inc ends : List (List Char)) :
    ((WTag.fileEventKindTag WFileEventKind.accessKind ∈ tags
      ∨ WTag.fileEventKindTag WFileEventKind.removeKind ∈ tags
      ∨ WTag.fileEventKindTag (WFileEventKind.modifyKind WModifyKind.metadataKind) ∈ tags
      ∨ WTag.keyboardTag ∈ tags ∨ WTag.signalTag ∈ tags) →
      match_event_by_tags tags inc ends = none)
    ∧ ((∀ p d, WTag.pathTag p d ∉ tags) → match_event_by_tags tags inc ends = none)
    ∧ (∀ (p : List Char) (k : WFileEventKind),
        k ∈ [WFileEventKind.createKind, WFileEventKind.modifyKind WModifyKind.dataKind,
          WFileEventKind.modifyKind WModifyKind.nameKind,
          WFileEventKind.modifyKind WModifyKind.anyKind] →
        pathPassesFilters p inc ends = true →
        match_event_by_tags [WTag.pathTag p false, WTag.fileEventKindTag k] inc ends
          = some p) := by
  refine ⟨fun h => matchEventLoop_none_of_reject inc ends tags none h,
    fun h => matchEventLoop_none_of_no_path inc ends tags h, ?_⟩
  intro p k hk hpass
  have hsplit : ends.all (fun pat => !charsEndsWith p pat) = true
      ∧ inc.all (fun pat => !charsContains p pat) = true := by
    simpa [pathPassesFilters, Bool.and_eq_true] using hpass
  have hends : ends.any (fun pat => charsEndsWith p pat) = false := by
    rw [List.any_eq_false]
    intro pat hpat
    have := List.all_eq_true.mp hsplit.1 pat hpat
    simpa using this
  have hinc : inc.any (fun pat => charsContains p pat) = false := by
    rw [List.any_eq_false]
    intro pat hpat
    have := List.all_eq_true.mp hsplit.2 pat hpat
    simpa using this
  simp only [List.mem_cons, List.mem_singleton, List.not_mem_nil, or_false] at hk
  rcases hk with rfl | rfl | rfl | rfl <;>
    simp [match_event_by_tags, matchEventLoop, hends, hinc]

/-- Witness for C6: a metadata-only modify event and a pure process event
contribute nothing, while a create event for a surviving path is kept. -/
theorem claim_C6_event_kind_filter_witness :
    match_event_by_tags
        [WTag.pathTag ['x'] false,
         WTag.fileEventKindTag (WFileEventKind.modifyKind WModifyKind.metadataKind)]
        [] [] = none
    ∧ match_event_by_tags [WTag.sourceTag, WTag.processTag 7] [] [] = none
    ∧ match_event_by_tags
        [WTag.pathTag ['x'] false, WTag.fileEventKindTag WFileEventKind.createKind]
        [] [] = some ['x'] := by
  refine ⟨?_, ?_, ?_⟩
  · exact (claim_C6_event_kind_filter
      [WTag.pathTag ['x'] false,
       WTag.fileEventKindTag (WFileEventKind.modifyKind WModifyKind.metadataKind)]
      [] []).1 (by decide)
  · exact (claim_C6_event_kind_filter [WTag.sourceTag, WTag.processTag 7] [] []).2.1
      (by intro p d; simp)
  · exact (claim_C6_event_kind_filter [] [] []).2.2 ['x'] WFileEventKind.createKind
      (by decide) (by decide)

/-- Concrete canonicalisation for the C5 counterexample: the OS resolves
the relative raw path against the process cwd `/h`, exactly as
`Path::canonicalize` does for a relative watch dir. -/
def canonUnderH : List Char → Option (List Char) :=
  fun raw => some ('/' :: 'h' :: '/' :: raw)

/-- C5 counterexample: the initial scan filters the *raw* walk path and
then emits its canonicalisation, so the emitted path `/h/x` — which
contains the ignore pattern `/h` — appears in the initial-scan batch. -/
theorem claim_C5_filter_soundness_counterexample :
    charsContains ['/', 'h', '/', 'x'] ['/', 'h'] = true
    ∧ ['/', 'h', '/', 'x'] ∈ initialScanFiles canonUnderH [(['x'], true)] [['/', 'h']] []
    := by
  decide

/-- C5 (amended): a path matching an ignore pattern never appears in an
event batch; every path of the initial-scan batch is the canonicalisation
of a scanned regular file whose *pre-canonicalisation* form matches no
ignore pattern (the canonicalised emitted path itself may match one). -/
theorem claim_C5_filter_soundness (evts : List (List WTag))
    (inc ends : List (List Char)) (p : List Char) :
    (((∃ pat ∈ inc, charsContains p pat = true)
        ∨ (∃ pat ∈ ends, charsEndsWith p pat = true)) →
      p ∉ watcherEventBatch evts inc ends)
    ∧ (∀ (canon : List Char → Option (List Char))
        (entries : List (List Char × Bool)) (q : List Char),
        q ∈ initialScanFiles canon entries inc ends →
        ∃ raw, (raw, true) ∈ entries ∧ canon raw = some q
          ∧ inc.all (fun pat => !charsContains raw pat) = true
          ∧ ends.all (fun pat => !charsEndsWith raw pat) = true) := by
  constructor
  · intro hmatch hmem
    have hpass := mem_watcherEventBatch_passes evts inc ends p hmem
    have hsplit : ends.all (fun pat => !charsEndsWith p pat) = true
        ∧ inc.all (fun pat => !charsContains p pat) = true := by
      simpa [pathPassesFilters, Bool.and_eq_true] using hpass
    rcases hmatch with ⟨pat, hpat, hc⟩ | ⟨pat, hpat, hc⟩
    · have := List.all_eq_true.mp hsplit.2 pat hpat
      simp [hc] at this
    · have := List.all_eq_true.mp hsplit.1 pat hpat
      simp [hc] at this
  · intro canon entries q hq
    rw [initialScanFiles] at hq
    rcases List.mem_filterMap.mp hq with ⟨e, he, hcanon⟩
    rcases List.mem_filter.mp he with ⟨hent, hpred⟩
    have hsplit : e.2 = true
        ∧ inc.all (fun pat => !charsContains e.1 pat) = true
        ∧ ends.all (fun pat => !charsEndsWith e.1 pat) = true := by
      simpa [Bool.and_eq_true, and_assoc] using hpred
    refine ⟨e.1, ?_, hcanon, hsplit.2.1, hsplit.2.2⟩
    have : e = (e.1, true) := by
      rcases e with ⟨raw, fl⟩
      simp only at hsplit ⊢
      rw [hsplit.1]
    rw [this] at hent
    exact hent

/-- Witness for C5 (amended): the path `xm`, which ends with the ignore
pattern `m`, is absent from a concrete event batch that saw it; and the
sole emitted initial-scan path traces back to a raw path passing the
filters. -/
theorem claim_C5_filter_soundness_witness :
    (['x', 'm'] ∉ watcherEventBatch
        [[WTag.pathTag ['x', 'm'] false,
          WTag.fileEventKindTag (WFileEventKind.modifyKind WModifyKind.dataKind)]]
        [] [['m']])
    ∧ (∃ raw, (raw, true) ∈ [(['x'], true)] ∧ canonUnderH raw = some ['/', 'h', '/', 'x']
        ∧ List.all [] (fun pat => !charsContains raw pat) = true
        ∧ List.all [] (fun pat => !charsEndsWith raw pat) = true) := by
  constructor
  · exact (claim_C5_filter_soundness
      [[WTag.pathTag ['x', 'm'] false,
        WTag.fileEventKindTag (WFileEventKind.modifyKind WModifyKind.dataKind)]]
      [] [['m']] ['x', 'm']).1 (Or.inr ⟨['m'], by decide, by decide⟩)
  · exact (claim_C5_filter_soundness [] [] [] ['/', 'h', '/', 'x']).2 canonUnderH
      [(['x'], true)] ['/', 'h', '/', 'x'] (by decide)

end SftpDevUploader
